import Mathlib

/-
Verification of the box-counting fractal-dimension engine
(`src/app.service.ts`, NestJS `ImageProcessingService`).

The source file carries two revisions of the service.  Where the two
revisions agree (grid builder, box extraction, occupancy predicate) the
model is shared; where they differ the definitions live in the
namespaces `RevA` (first revision: neighborhood 81, scaling factor 3,
minimum box size 1, Otsu binarization inside the estimator, stopping
condition `boxSize <= N/2`, returns the raw regression slope) and
`RevB` (second revision: standardized image size 512, neighborhood 128,
scaling factor 2, minimum box size 2, no binarization, stopping
condition `boxSize < N/2`, returns the negated slope).

Modelling conventions:
- JavaScript numbers are modelled as exact rationals for the integer /
  histogram arithmetic and as real numbers for the logarithmic and
  regression layer.  Divisions that are 0/0 (NaN in JavaScript) become
  0 under the Lean convention; at every place this happens the code
  only compares the resulting value with a strict greater-than against
  a nonnegative running maximum, so the NaN-comparison-is-false
  semantics of JavaScript and the junk-zero semantics of Lean select
  the same branch.  This is noted again at the definitions concerned.
- Math.log(0) is negative infinity in JavaScript; the faithful data
  stream of the estimator is therefore valued in EReal (`jsLog`).
- Grids are row-major lists of rows of natural-number samples.
-/

namespace BoxApp

/-- A pixel grid: row-major list of rows of intensity samples. -/
abbrev Mat := List (List ℕ)

/-- The m-by-n grid whose every sample is the constant c. -/
def constMat (m n c : ℕ) : Mat :=
  List.replicate m (List.replicate n c)

/-- Sample access with JavaScript-style out-of-range defaulting
(reading past an array yields no value; 0 is used as the default,
which is only exercised in-bounds in the statements below). -/
def entry (M : Mat) (i j : ℕ) : ℕ :=
  (M.getD i []).getD j 0

/-- Number of rows of a grid. -/
def rowsOf (M : Mat) : ℕ := M.length

/-- Width used throughout the source: the length of row 0
(`matrix[0].length`). -/
def width0 (M : Mat) : ℕ := (M.headD []).length

/-- Grid Builder, `toPixelMatrix` (identical in both revisions).
While samples remain, take the next `width` of them as a row
(`slice(startIndex, startIndex + width)` clips at the end of the
buffer, so a final short row is produced when the length is not a
multiple of the width).  The source loop does not terminate for
width 0; the model returns the empty grid in that unreachable case. -/
def toPixelMatrix (pixelArray : List ℕ) (width : ℕ) : Mat :=
  if h : pixelArray = [] ∨ width = 0 then []
  else pixelArray.take width :: toPixelMatrix (pixelArray.drop width) width
termination_by pixelArray.length
decreasing_by
  simp only [not_or] at h
  have h1 : 0 < width := Nat.pos_of_ne_zero h.2
  have h2 : 0 < pixelArray.length := List.length_pos.mpr h.1
  simpa using Nat.sub_lt h2 h1

/-- Row-major listing of the samples the nested loops of the source
visit: i over the row count, j over `matrix[0].length`. -/
def pixelSeq (M : Mat) : List ℕ :=
  ((List.range (rowsOf M)).map (fun i =>
    (List.range (width0 M)).map (fun j => entry M i j))).flatten

/-- Histogram of `binarizeWithOtsu`: occurrences of intensity v over
the nested i / j loops of the source. -/
def histogram (M : Mat) (v : ℕ) : ℕ :=
  (pixelSeq M).count v

/-- `totalPixels = matrix.length * matrix[0].length`. -/
def totalPixels (M : Mat) : ℕ :=
  rowsOf M * width0 M

/-- `normalizedHistogram = histogram.map(count => count / totalPixels)`. -/
def normalizedHistogram (M : Mat) (v : ℕ) : ℚ :=
  (histogram M v : ℚ) / (totalPixels M : ℚ)

/-- `cumulativeSum[t]`: running prefix sum of the normalized
histogram up to and including bin t. -/
def cumulativeSum (M : Mat) (t : ℕ) : ℚ :=
  ((List.range (t + 1)).map (fun i => normalizedHistogram M i)).sum

/-- Background mean of the source:
`cumulativeSum.slice(0, t+1).reduce((sum, value, index) => sum + index*normalizedHistogram[index], 0) / backgroundWeight`.
The slice keeps indices 0..t, so the reduce adds i * p(i) for i = 0..t. -/
def backgroundMean (M : Mat) (t : ℕ) : ℚ :=
  ((List.range (t + 1)).map (fun (i : ℕ) => (i : ℚ) * normalizedHistogram M i)).sum
    / cumulativeSum M t

/-- Foreground mean of the source:
`cumulativeSum.slice(t+1).reduce((sum, value, index) => sum + index*normalizedHistogram[index], 0) / foregroundWeight`.
The sliced array has length 255 - t and the reduce callback receives
indices 0..254-t relative to the slice, so the sum ranges over the LOW
bins k = 0..254-t, not over the bins above t. -/
def foregroundMean (M : Mat) (t : ℕ) : ℚ :=
  ((List.range (255 - t)).map (fun (k : ℕ) => (k : ℚ) * normalizedHistogram M k)).sum
    / (1 - cumulativeSum M t)

/-- Between-class variance of the source, built from the two means
above.  Where JavaScript produces NaN (0/0 in a mean, or 0 times an
infinite mean), the Lean value is 0 because one of the two weight
factors is 0; in both semantics the strict comparison against the
nonnegative running maximum then fails, so the selection below agrees
with the source. -/
def betweenClassVariance (M : Mat) (t : ℕ) : ℚ :=
  cumulativeSum M t * (1 - cumulativeSum M t)
    * (backgroundMean M t - foregroundMean M t) ^ 2

/-- One step of the threshold scan: keep (maxVariance, threshold),
replace when the variance at t strictly exceeds the running maximum
(so ties keep the earlier t). -/
def otsuStep (M : Mat) (s : ℚ × ℕ) (t : ℕ) : ℚ × ℕ :=
  if s.1 < betweenClassVariance M t then (betweenClassVariance M t, t) else s

/-- The selected threshold: left-to-right scan of t = 0..255 starting
from (maxVariance, threshold) = (0, 0). -/
def otsuThreshold (M : Mat) : ℕ :=
  ((List.range 256).foldl (otsuStep M) (0, 0)).2

/-- `binarizeWithOtsu`: map every sample of the nested i / j loops to
255 when it strictly exceeds the selected threshold, else 0. -/
def binarizeWithOtsu (M : Mat) : Mat :=
  (List.range (rowsOf M)).map (fun i =>
    (List.range (width0 M)).map (fun j =>
      if otsuThreshold M < entry M i j then 255 else 0))

/-- Background mean written the way the specification states it
(identical to the source: the slice from 0 keeps absolute indices). -/
def backgroundMeanSpec (M : Mat) (t : ℕ) : ℚ := backgroundMean M t

/-- Modelled from the spec: foreground mean as paragraph 4.3 states
it, the sum of i * p(i) over the bins i strictly above t divided by
the foreground weight.  Kept next to `foregroundMean` to compare the
source against the stated formula. -/
def foregroundMeanSpec (M : Mat) (t : ℕ) : ℚ :=
  (((List.range 256).filter (fun i => t < i)).map
      (fun (i : ℕ) => (i : ℚ) * normalizedHistogram M i)).sum
    / (1 - cumulativeSum M t)

/-- Modelled from the spec: between-class variance with the stated
foreground mean. -/
def betweenClassVarianceSpec (M : Mat) (t : ℕ) : ℚ :=
  cumulativeSum M t * (1 - cumulativeSum M t)
    * (backgroundMeanSpec M t - foregroundMeanSpec M t) ^ 2

/-- Modelled from the spec: one step of the stated threshold scan. -/
def otsuStepSpec (M : Mat) (s : ℚ × ℕ) (t : ℕ) : ℚ × ℕ :=
  if s.1 < betweenClassVarianceSpec M t then (betweenClassVarianceSpec M t, t) else s

/-- Modelled from the spec: the threshold the stated Otsu rule
selects (left-to-right scan, ties keep the lowest t). -/
def otsuThresholdSpec (M : Mat) : ℕ :=
  ((List.range 256).foldl (otsuStepSpec M) (0, 0)).2

/-- Tiling start offsets of the counting loops:
`for (i = 0; i < NEIGHBORHOOD_SIZE; i += boxSize)` visits the
multiples of boxSize below N, of which there are ceil(N / boxSize). -/
def stepList (N b : ℕ) : List ℕ :=
  (List.range ((N + b - 1) / b)).map (fun q => q * b)

/-- `getBoxPixels`: for each of boxSize row offsets, the slice
`neighborhood[upMostY + r].slice(leftMostX, leftMostX + boxSize)`
(drop then take, clipping at the row end exactly as slice does),
concatenated.  A read of a missing row yields the empty slice; in the
source that case would fault, and it is outside every instantiation
proved below (box sizes divide the neighborhood side). -/
def getBoxPixels (neighborhood : Mat) (upMostY leftMostX boxSize : ℕ) : List ℕ :=
  ((List.range boxSize).map (fun r =>
    ((neighborhood.getD (upMostY + r) []).drop leftMostX).take boxSize)).flatten

/-- `isBoxCountable`: every sampled pixel of the box is non-zero
(the second argument is unused in the source as well). -/
def isBoxCountable (boxPixels : List ℕ) (mainPixel : ℕ) : Bool :=
  boxPixels.all (fun pixel => pixel != 0)

/-- Boxes counted at one box size: both nested loops step through
`stepList`, and a box is counted when `isBoxCountable` holds of its
pixels. -/
def boxCount (neighborhood : Mat) (N b : ℕ) : ℕ :=
  ((stepList N b).map (fun i =>
    ((stepList N b).filter (fun j =>
      isBoxCountable (getBoxPixels neighborhood i j b) (entry neighborhood i j))).length)).sum

/-- Box-size progression of the first revision:
`for (boxSize = MIN; boxSize <= maxBoxSize; boxSize *= k)`.
The fuel argument only bounds the number of iterations; every use
below supplies enough fuel for the loop to run to its exit test. -/
def sizeProgressionLe (k : ℕ) (bound : ℚ) : ℕ → ℕ → List ℕ
  | 0, _ => []
  | fuel + 1, size =>
      if (size : ℚ) ≤ bound then size :: sizeProgressionLe k bound fuel (size * k) else []

/-- Box-size progression of the second revision: same loop with the
strict test `boxSize < maxBoxSize`. -/
def sizeProgressionLt (k : ℕ) (bound : ℚ) : ℕ → ℕ → List ℕ
  | 0, _ => []
  | fuel + 1, size =>
      if (size : ℚ) < bound then size :: sizeProgressionLt k bound fuel (size * k) else []

/-- Math.log on the natural counts as JavaScript computes it:
log 0 is negative infinity, so the value lives in EReal. -/
noncomputable def jsLog (n : ℕ) : EReal :=
  if n = 0 then ⊥ else ((Real.log n : ℝ) : EReal)

/-- Modelled from the spec: the slope of the ordinary-least-squares
line through the data points, as the external `regression` package
(not part of this repository) computes its gradient:
(n * sum xy - sum x * sum y) / (n * sum x^2 - (sum x)^2).  The
package maps a zero denominator to gradient 0, which coincides with
the Lean convention x / 0 = 0; its final decimal rounding is outside
the contract (spec section 1, non-goals). -/
noncomputable def olsSlope (data : List (ℝ × ℝ)) : ℝ :=
  ((data.length : ℝ) * (data.map (fun p => p.1 * p.2)).sum
      - (data.map Prod.fst).sum * (data.map Prod.snd).sum)
    / ((data.length : ℝ) * (data.map (fun p => p.1 * p.1)).sum
      - (data.map Prod.fst).sum * (data.map Prod.fst).sum)

/-- `getNeighborhood`, shared shape of both revisions: cnt sampled
offsets per axis starting at center - halfSize, out-of-bounds samples
becoming 0.  The first revision uses cnt = 2 * halfSize + 1 (loop to
x + halfSize inclusive), the second cnt = 2 * halfSize (loop to
x + halfSize - 1). -/
def getNeighborhood (M : Mat) (x y : ℤ) (cnt halfSize : ℕ) : Mat :=
  (List.range cnt).map (fun di =>
    (List.range cnt).map (fun dj =>
      let i : ℤ := x - halfSize + di
      let j : ℤ := y - halfSize + dj
      if i < 0 ∨ j < 0 ∨ (rowsOf M : ℤ) ≤ i ∨ (width0 M : ℤ) ≤ j then 0
      else entry M i.toNat j.toNat))

namespace RevA

def NEIGHBORHOOD_SIZE : ℕ := 81
def SCALING_FACTOR : ℕ := 3
def MIN_BOX_SIZE : ℕ := 1

/-- `maxBoxSize = NEIGHBORHOOD_SIZE / 2` over JavaScript numbers. -/
def maxBoxSize : ℚ := (NEIGHBORHOOD_SIZE : ℚ) / 2

/-- The sizes the first revision visits (fuel 81 far exceeds the four
iterations the exit test allows). -/
def boxSizes : List ℕ :=
  sizeProgressionLe SCALING_FACTOR maxBoxSize NEIGHBORHOOD_SIZE MIN_BOX_SIZE

/-- The regression input stream exactly as the first revision builds
it: the neighborhood is binarized with Otsu, then for every box size
the pair (Math.log boxSize, Math.log boxesCount) is pushed. -/
noncomputable def dataPoints (neighborhood : Mat) : List (ℝ × EReal) :=
  boxSizes.map (fun (b : ℕ) =>
    ((Real.log (b : ℝ) : ℝ),
      jsLog (boxCount (binarizeWithOtsu neighborhood) NEIGHBORHOOD_SIZE b)))

/-- The same stream read at real type; it agrees with `dataPoints`
whenever every box count is positive (the regime in which the source
produces finite numbers rather than NaN). -/
noncomputable def dataPointsReal (neighborhood : Mat) : List (ℝ × ℝ) :=
  boxSizes.map (fun (b : ℕ) =>
    ((Real.log (b : ℝ) : ℝ),
      Real.log ((boxCount (binarizeWithOtsu neighborhood) NEIGHBORHOOD_SIZE b : ℕ) : ℝ)))

/-- First revision estimator on a neighborhood:
`regression.linear(data).equation[0]`, the RAW slope. -/
noncomputable def estimate (neighborhood : Mat) : ℝ :=
  olsSlope (dataPointsReal neighborhood)

/-- `calculateFractalDimension` of the first revision. -/
noncomputable def calculateFractalDimension (M : Mat) (x y : ℤ) : ℝ :=
  estimate (getNeighborhood M x y NEIGHBORHOOD_SIZE 40)

end RevA

namespace RevB

def STANDARDIZED_IMAGE_SIZE : ℕ := 512
def NEIGHBORHOOD_SIZE : ℕ := 128
def SCALING_FACTOR : ℕ := 2
def MIN_BOX_SIZE : ℕ := 2

/-- `fillTheRows`: append zero rows of the current row length until
the standardized row count is reached. -/
def fillTheRows (M : Mat) : Mat :=
  M ++ List.replicate (STANDARDIZED_IMAGE_SIZE - rowsOf M)
        (List.replicate (width0 M) 0)

/-- `squareMatrix`: truncate or zero-pad each axis independently to
the standardized size. -/
def squareMatrix (M : Mat) : Mat :=
  let m1 := if STANDARDIZED_IMAGE_SIZE < rowsOf M
    then M.take STANDARDIZED_IMAGE_SIZE else fillTheRows M
  if STANDARDIZED_IMAGE_SIZE < width0 M
    then m1.map (fun row => row.take STANDARDIZED_IMAGE_SIZE)
    else m1.map (fun row => row ++ List.replicate (STANDARDIZED_IMAGE_SIZE - width0 M) 0)

/-- `maxBoxSize = NEIGHBORHOOD_SIZE / 2`. -/
def maxBoxSize : ℚ := (NEIGHBORHOOD_SIZE : ℚ) / 2

/-- The sizes the second revision visits (strict exit test). -/
def boxSizes : List ℕ :=
  sizeProgressionLt SCALING_FACTOR maxBoxSize NEIGHBORHOOD_SIZE MIN_BOX_SIZE

/-- The regression input stream of the second revision: no
binarization happens; the pairs are pushed straight from the
neighborhood counts. -/
noncomputable def dataPoints (neighborhood : Mat) : List (ℝ × EReal) :=
  boxSizes.map (fun (b : ℕ) =>
    ((Real.log (b : ℝ) : ℝ), jsLog (boxCount neighborhood NEIGHBORHOOD_SIZE b)))

/-- Real-typed reading of the stream, as for the first revision. -/
noncomputable def dataPointsReal (neighborhood : Mat) : List (ℝ × ℝ) :=
  boxSizes.map (fun (b : ℕ) =>
    ((Real.log (b : ℝ) : ℝ),
      Real.log ((boxCount neighborhood NEIGHBORHOOD_SIZE b : ℕ) : ℝ)))

/-- Second revision estimator: returns the NEGATED slope. -/
noncomputable def estimate (neighborhood : Mat) : ℝ :=
  -olsSlope (dataPointsReal neighborhood)

/-- `calculateFractalDimension` of the second revision. -/
noncomputable def calculateFractalDimension (M : Mat) (x y : ℤ) : ℝ :=
  estimate (getNeighborhood M x y NEIGHBORHOOD_SIZE 64)

end RevB

/-- Modelled from the spec: the fractal dimension the specification
assigns to a fitted line, the NEGATED slope (section 4.5). -/
noncomputable def specFractalDimension (data : List (ℝ × ℝ)) : ℝ :=
  -olsSlope data

/-- `getColor` of the first revision: red = round(255 v), green = 0,
blue = round(255 (1 - v)), defined for every input value. -/
def getColor (value : ℚ) : ℤ × ℤ × ℤ :=
  (round (255 * value), 0, round (255 * (1 - value)))

/-- A fractal-dimension field: same shape discipline as Mat but with
rational cell values. -/
abbrev QMat := List (List ℚ)

/-- Row-major cell listing of the heatmap loops (row over height,
col over `matrix[0].length`). -/
def pixelSeqQ (M : QMat) : List ℚ :=
  ((List.range M.length).map (fun i =>
    (List.range (M.headD []).length).map (fun j => (M.getD i []).getD j 0))).flatten

/-- The three bytes `generateHeatmap` stores for one cell: writing to
the byte buffer reduces the integer modulo 256 (JavaScript Uint8
conversion). -/
def colorBytes (value : ℚ) : List ℤ :=
  [(getColor value).1 % 256, (getColor value).2.1 % 256, (getColor value).2.2 % 256]

/-- The raster `generateHeatmap` hands to the codec collaborator:
three bytes per cell, row-major (the file write around it is external
I/O and not modelled). -/
def heatmapRaster (M : QMat) : List ℤ :=
  ((pixelSeqQ M).map colorBytes).flatten

/-! Generic list helpers used throughout the development. -/

lemma getD_replicate_eval {α : Type} (m i : ℕ) (x d : α) :
    (List.replicate m x).getD i d = if i < m then x else d := by
  by_cases h : i < m
  · rw [List.getD_eq_getElem _ _ (by simpa using h)]
    simp [h]
  · rw [List.getD_eq_default _ _ (by simpa using Nat.le_of_not_lt h)]
    simp [h]

lemma map_range_eq_replicate {α : Type} (n : ℕ) (f : ℕ → α) (c : α)
    (h : ∀ i, i < n → f i = c) :
    (List.range n).map f = List.replicate n c := by
  refine List.eq_replicate_iff.mpr ⟨by simp, ?_⟩
  intro b hb
  obtain ⟨i, hi, rfl⟩ := List.mem_map.mp hb
  exact h i (List.mem_range.mp hi)

lemma flatten_replicate_replicate {α : Type} (m n : ℕ) (c : α) :
    (List.replicate m (List.replicate n c)).flatten = List.replicate (m * n) c := by
  induction m with
  | zero => simp
  | succ m ih =>
      rw [List.replicate_succ, List.flatten_cons, ih, Nat.succ_mul, Nat.add_comm,
        ← List.replicate_add]

lemma sum_range_support_single (f : ℕ → ℚ) (c : ℕ)
    (h : ∀ i, i ≠ c → f i = 0) (n : ℕ) :
    ((List.range n).map f).sum = if c < n then f c else 0 := by
  induction n with
  | zero => simp
  | succ n ih =>
      rw [List.range_succ, List.map_append, List.sum_append, ih]
      by_cases h1 : c < n
      · have : f n = 0 := h n (by omega)
        simp [h1, Nat.lt_succ_of_lt h1, this]
      · by_cases h2 : c = n
        · subst h2
          simp [h1]
        · have : f n = 0 := h n (by omega)
          have h3 : ¬ c < n + 1 := by omega
          simp [h1, h3, this]

lemma sum_range_support_pair (f : ℕ → ℚ) (c d : ℕ) (hcd : c ≠ d)
    (h : ∀ i, i ≠ c → i ≠ d → f i = 0) (n : ℕ) :
    ((List.range n).map f).sum
      = (if c < n then f c else 0) + (if d < n then f d else 0) := by
  induction n with
  | zero => simp
  | succ n ih =>
      rw [List.range_succ, List.map_append, List.sum_append, ih]
      by_cases h2 : n = c
      · subst h2
        have h3 : ¬ n < n := by omega
        have h4 : d ≠ n := fun hh => hcd hh.symm
        by_cases h5 : d < n
        · simp [h3, h5, Nat.lt_succ_of_lt h5]
          ring
        · have h6 : ¬ d < n + 1 := by omega
          simp [h3, h5, h6]
      · by_cases h7 : n = d
        · subst h7
          have h3 : ¬ n < n := by omega
          by_cases h5 : c < n
          · simp [h3, h5, Nat.lt_succ_of_lt h5]
          · have h6 : ¬ c < n + 1 := by omega
            simp [h3, h5, h6]
        · have hf : f n = 0 := h n (by omega) (by omega)
          by_cases h5 : c < n
          · by_cases h6 : d < n
            · simp [h5, h6, Nat.lt_succ_of_lt h5, Nat.lt_succ_of_lt h6, hf]
            · have h8 : ¬ d < n + 1 := by omega
              simp [h5, h6, Nat.lt_succ_of_lt h5, h8, hf]
          · have h8 : ¬ c < n + 1 := by omega
            by_cases h6 : d < n
            · simp [h5, h6, h8, Nat.lt_succ_of_lt h6, hf]
            · have h9 : ¬ d < n + 1 := by omega
              simp [h5, h6, h8, h9, hf]

lemma sum_map_filter_eq_sum_ite (p : ℕ → Bool) (f : ℕ → ℚ) (l : List ℕ) :
    ((l.filter p).map f).sum = (l.map (fun i => if p i then f i else 0)).sum := by
  induction l with
  | nil => simp
  | cons a l ih =>
      by_cases h : p a
      · simp [List.filter_cons, h, ih]
      · simp [List.filter_cons, h, ih]

/-! The threshold scan: a foldl that keeps the first strict maximum. -/

lemma foldl_scan_keep (v : ℕ → ℚ) (s : ℚ × ℕ) (l : List ℕ)
    (h : ∀ t ∈ l, v t ≤ s.1) :
    l.foldl (fun s t => if s.1 < v t then (v t, t) else s) s = s := by
  induction l with
  | nil => rfl
  | cons a l ih =>
      rw [List.foldl_cons, if_neg (not_lt.mpr (h a (List.mem_cons_self a l)))]
      exact ih (fun t ht => h t (List.mem_cons_of_mem a ht))

lemma foldl_scan_select (v : ℕ → ℚ) (n t0 : ℕ) (ht : t0 < n)
    (hbef : ∀ t, t < t0 → v t ≤ 0) (hpos : 0 < v t0)
    (haft : ∀ t, t0 < t → t < n → v t ≤ v t0) :
    (List.range n).foldl (fun s t => if s.1 < v t then (v t, t) else s) (0, 0)
      = (v t0, t0) := by
  obtain ⟨k, hk⟩ : ∃ k, n = t0 + (k + 1) := ⟨n - t0 - 1, by omega⟩
  subst hk
  rw [List.range_add, List.foldl_append]
  rw [foldl_scan_keep _ _ _ (fun t htl => hbef t (List.mem_range.mp htl))]
  rw [List.range_succ_eq_map, List.map_cons, List.foldl_cons]
  rw [if_pos (by simpa using hpos)]
  refine foldl_scan_keep _ _ _ ?_
  intro t htl
  simp only [List.map_map, Function.comp, List.mem_map, List.mem_range] at htl
  obtain ⟨i, hi, rfl⟩ := htl
  exact haft _ (by omega) (by omega)

/-! Constant grids through the Otsu binarizer. -/

lemma rowsOf_constMat (m n c : ℕ) : rowsOf (constMat m n c) = m := by
  simp [rowsOf, constMat]

lemma width0_constMat (m n c : ℕ) (hm : 0 < m) : width0 (constMat m n c) = n := by
  obtain ⟨m', rfl⟩ : ∃ m', m = m' + 1 := ⟨m - 1, by omega⟩
  simp [width0, constMat, List.replicate_succ]

lemma entry_constMat (m n c i j : ℕ) (hi : i < m) (hj : j < n) :
    entry (constMat m n c) i j = c := by
  simp [entry, constMat, getD_replicate_eval, hi, hj]

lemma pixelSeq_constMat (m n c : ℕ) (hm : 0 < m) :
    pixelSeq (constMat m n c) = List.replicate (m * n) c := by
  unfold pixelSeq
  rw [rowsOf_constMat, width0_constMat m n c hm]
  rw [map_range_eq_replicate m _ (List.replicate n c) (fun i hi =>
    map_range_eq_replicate n _ c (fun j hj => entry_constMat m n c i j hi hj))]
  exact flatten_replicate_replicate m n c

lemma normalizedHistogram_constMat (m n c : ℕ) (hm : 0 < m) (hn : 0 < n) (v : ℕ) :
    normalizedHistogram (constMat m n c) v = if v = c then 1 else 0 := by
  have hmn : ((m : ℚ) * (n : ℚ)) ≠ 0 :=
    ne_of_gt (mul_pos (by exact_mod_cast hm) (by exact_mod_cast hn))
  have htot : ((totalPixels (constMat m n c) : ℕ) : ℚ) = (m : ℚ) * (n : ℚ) := by
    rw [totalPixels, rowsOf_constMat, width0_constMat m n c hm]
    push_cast
    ring
  unfold normalizedHistogram histogram
  rw [pixelSeq_constMat m n c hm, List.count_replicate, htot]
  simp only [beq_iff_eq]
  by_cases hv : v = c
  · rw [if_pos hv.symm, if_pos hv, Nat.cast_mul]
    exact div_self hmn
  · rw [if_neg (fun h => hv h.symm), if_neg hv, Nat.cast_zero, zero_div]

lemma cumulativeSum_constMat (m n c : ℕ) (hm : 0 < m) (hn : 0 < n) (t : ℕ) :
    cumulativeSum (constMat m n c) t = if c ≤ t then 1 else 0 := by
  unfold cumulativeSum
  rw [sum_range_support_single _ c (fun i hi => by
    rw [normalizedHistogram_constMat m n c hm hn]
    simp [hi])]
  rw [normalizedHistogram_constMat m n c hm hn]
  by_cases hc : c ≤ t
  · simp [hc, Nat.lt_succ_of_le hc]
  · have : ¬ c < t + 1 := by omega
    simp [hc, this]

lemma betweenClassVariance_constMat (m n c : ℕ) (hm : 0 < m) (hn : 0 < n) (t : ℕ) :
    betweenClassVariance (constMat m n c) t = 0 := by
  unfold betweenClassVariance
  rw [cumulativeSum_constMat m n c hm hn]
  by_cases hc : c ≤ t
  · simp [hc]
  · simp [hc]

lemma otsuThreshold_eq_zero_of (M : Mat)
    (h : ∀ t, t < 256 → betweenClassVariance M t ≤ 0) : otsuThreshold M = 0 := by
  have hstep : otsuStep M = fun s t =>
      if s.1 < betweenClassVariance M t then (betweenClassVariance M t, t) else s := rfl
  unfold otsuThreshold
  rw [hstep, foldl_scan_keep (betweenClassVariance M) (0, 0) _
    (fun t ht => h t (List.mem_range.mp ht))]

lemma otsuThreshold_select (M : Mat) (t0 : ℕ) (ht0 : t0 < 256)
    (hbef : ∀ t, t < t0 → betweenClassVariance M t ≤ 0)
    (hpos : 0 < betweenClassVariance M t0)
    (haft : ∀ t, t0 < t → t < 256 → betweenClassVariance M t ≤ betweenClassVariance M t0) :
    otsuThreshold M = t0 := by
  have hstep : otsuStep M = fun s t =>
      if s.1 < betweenClassVariance M t then (betweenClassVariance M t, t) else s := rfl
  unfold otsuThreshold
  rw [hstep, foldl_scan_select (betweenClassVariance M) 256 t0 ht0 hbef hpos haft]

lemma otsuThresholdSpec_select (M : Mat) (t0 : ℕ) (ht0 : t0 < 256)
    (hbef : ∀ t, t < t0 → betweenClassVarianceSpec M t ≤ 0)
    (hpos : 0 < betweenClassVarianceSpec M t0)
    (haft : ∀ t, t0 < t → t < 256 →
      betweenClassVarianceSpec M t ≤ betweenClassVarianceSpec M t0) :
    otsuThresholdSpec M = t0 := by
  have hstep : otsuStepSpec M = fun s t =>
      if s.1 < betweenClassVarianceSpec M t then (betweenClassVarianceSpec M t, t) else s := rfl
  unfold otsuThresholdSpec
  rw [hstep, foldl_scan_select (betweenClassVarianceSpec M) 256 t0 ht0 hbef hpos haft]

lemma otsuThreshold_constMat (m n c : ℕ) (hm : 0 < m) (hn : 0 < n) :
    otsuThreshold (constMat m n c) = 0 :=
  otsuThreshold_eq_zero_of _ (fun t _ =>
    le_of_eq (betweenClassVariance_constMat m n c hm hn t))

lemma binarizeWithOtsu_constMat (m n c : ℕ) (hm : 0 < m) (hn : 0 < n) :
    binarizeWithOtsu (constMat m n c) = constMat m n (if 0 < c then 255 else 0) := by
  unfold binarizeWithOtsu
  rw [rowsOf_constMat, width0_constMat m n c hm, otsuThreshold_constMat m n c hm hn]
  rw [map_range_eq_replicate m _ (List.replicate n (if 0 < c then 255 else 0))
    (fun i hi => map_range_eq_replicate n _ _ (fun j hj => by
      rw [entry_constMat m n c i j hi hj]))]
  rfl

/-! Box counting on grids whose side the box size divides. -/

lemma ceil_div_of_dvd (N b : ℕ) (hb : 0 < b) (hdvd : b ∣ N) :
    (N + b - 1) / b = N / b := by
  obtain ⟨q, rfl⟩ := hdvd
  rcases Nat.eq_zero_or_pos q with hq | hq
  · subst hq
    rw [Nat.mul_zero, Nat.zero_add, Nat.div_eq_of_lt (by omega), Nat.zero_div]
  · have h1 : b * q + b - 1 = (b - 1) + b * q := by omega
    rw [h1, Nat.add_mul_div_left _ _ hb, Nat.div_eq_of_lt (by omega),
      Nat.mul_div_cancel_left _ hb, Nat.zero_add]

lemma length_stepList (N b : ℕ) (hb : 0 < b) (hdvd : b ∣ N) :
    (stepList N b).length = N / b := by
  unfold stepList
  rw [List.length_map, List.length_range, ceil_div_of_dvd N b hb hdvd]

lemma mem_stepList (N b i : ℕ) (hb : 0 < b) (hdvd : b ∣ N) (hi : i ∈ stepList N b) :
    i + b ≤ N := by
  unfold stepList at hi
  obtain ⟨q, hq, rfl⟩ := List.mem_map.mp hi
  rw [List.mem_range, ceil_div_of_dvd N b hb hdvd] at hq
  have h1 : (q + 1) * b ≤ (N / b) * b := Nat.mul_le_mul_right _ (by omega)
  rw [Nat.div_mul_cancel hdvd] at h1
  rw [Nat.succ_mul] at h1
  exact h1

lemma getBoxPixels_constMat (N c i j b : ℕ) (hi : i + b ≤ N) (hj : j + b ≤ N) :
    getBoxPixels (constMat N N c) i j b = List.replicate (b * b) c := by
  unfold getBoxPixels
  rw [map_range_eq_replicate b _ (List.replicate b c) (fun r hr => by
    have hr' : i + r < N := by omega
    have hrow : (constMat N N c).getD (i + r) [] = List.replicate N c := by
      rw [constMat, getD_replicate_eval, if_pos hr']
    rw [hrow, List.drop_replicate, List.take_replicate]
    congr 1
    omega)]
  exact flatten_replicate_replicate b b c

lemma mem_getBoxPixels (M : Mat) (i j b : ℕ) (x : ℕ)
    (hx : x ∈ getBoxPixels M i j b) : ∃ row ∈ M, x ∈ row := by
  unfold getBoxPixels at hx
  rw [List.mem_flatten] at hx
  obtain ⟨l, hl, hxl⟩ := hx
  obtain ⟨r, _, rfl⟩ := List.mem_map.mp hl
  have hx1 : x ∈ (M.getD (i + r) []).drop j :=
    (List.take_sublist _ _).mem hxl
  have hx2 : x ∈ M.getD (i + r) [] := (List.drop_sublist _ _).mem hx1
  by_cases hin : i + r < M.length
  · refine ⟨M.getD (i + r) [], ?_, hx2⟩
    rw [List.getD_eq_getElem _ _ hin]
    exact List.getElem_mem hin
  · rw [List.getD_eq_default _ _ (by omega)] at hx2
    exact absurd hx2 (List.not_mem_nil x)

lemma boxCount_of_all_ne_zero (M : Mat) (N b : ℕ) (hb : 0 < b) (hdvd : b ∣ N)
    (hnz : ∀ row ∈ M, ∀ p ∈ row, p ≠ 0) :
    boxCount M N b = (N / b) ^ 2 := by
  unfold boxCount
  have hcount : ∀ i ∈ stepList N b, ∀ j ∈ stepList N b,
      isBoxCountable (getBoxPixels M i j b) (entry M i j) = true := by
    intro i _ j _
    unfold isBoxCountable
    rw [List.all_eq_true]
    intro p hp
    obtain ⟨row, hrow, hprow⟩ := mem_getBoxPixels M i j b p hp
    simpa using hnz row hrow p hprow
  rw [List.map_congr_left (fun i hi => by
    rw [List.filter_eq_self.mpr (fun j hj => hcount i hi j hj)])]
  rw [List.map_const', List.sum_replicate, smul_eq_mul,
    length_stepList N b hb hdvd, sq]

lemma boxCount_constMat_zero (N b : ℕ) (hb : 0 < b) (hdvd : b ∣ N) :
    boxCount (constMat N N 0) N b = 0 := by
  unfold boxCount
  have hcount : ∀ i ∈ stepList N b, ∀ j ∈ stepList N b,
      isBoxCountable (getBoxPixels (constMat N N 0) i j b) (entry (constMat N N 0) i j)
        = false := by
    intro i hi j hj
    unfold isBoxCountable
    rw [getBoxPixels_constMat N 0 i j b (mem_stepList N b i hb hdvd hi)
      (mem_stepList N b j hb hdvd hj)]
    have hbb : 0 < b * b := Nat.mul_pos hb hb
    obtain ⟨k, hk⟩ : ∃ k, b * b = k + 1 := ⟨b * b - 1, by omega⟩
    rw [hk, List.replicate_succ]
    simp
  rw [List.map_congr_left (fun i hi => by
    rw [List.filter_congr (fun j hj => hcount i hi j hj), List.filter_false])]
  simp

/-! Evaluating the two box-size progressions. -/

lemma sizeProgressionLe_step (k : ℕ) (bound : ℚ) (fuel size : ℕ)
    (h : (size : ℚ) ≤ bound) :
    sizeProgressionLe k bound (fuel + 1) size
      = size :: sizeProgressionLe k bound fuel (size * k) := by
  rw [sizeProgressionLe, if_pos h]

lemma sizeProgressionLe_stop (k : ℕ) (bound : ℚ) (fuel size : ℕ)
    (h : ¬ (size : ℚ) ≤ bound) :
    sizeProgressionLe k bound fuel size = [] := by
  cases fuel with
  | zero => rfl
  | succ fuel => rw [sizeProgressionLe, if_neg h]

lemma sizeProgressionLt_step (k : ℕ) (bound : ℚ) (fuel size : ℕ)
    (h : (size : ℚ) < bound) :
    sizeProgressionLt k bound (fuel + 1) size
      = size :: sizeProgressionLt k bound fuel (size * k) := by
  rw [sizeProgressionLt, if_pos h]

lemma sizeProgressionLt_stop (k : ℕ) (bound : ℚ) (fuel size : ℕ)
    (h : ¬ (size : ℚ) < bound) :
    sizeProgressionLt k bound fuel size = [] := by
  cases fuel with
  | zero => rfl
  | succ fuel => rw [sizeProgressionLt, if_neg h]

lemma boxSizesA_eq : RevA.boxSizes = [1, 3, 9, 27] := by
  unfold RevA.boxSizes RevA.maxBoxSize RevA.NEIGHBORHOOD_SIZE RevA.SCALING_FACTOR
    RevA.MIN_BOX_SIZE
  rw [show (81 : ℕ) = 80 + 1 from rfl,
    sizeProgressionLe_step _ _ _ _ (by norm_num),
    show (80 : ℕ) = 79 + 1 from rfl,
    sizeProgressionLe_step _ _ _ _ (by norm_num),
    show (79 : ℕ) = 78 + 1 from rfl,
    sizeProgressionLe_step _ _ _ _ (by norm_num),
    show (78 : ℕ) = 77 + 1 from rfl,
    sizeProgressionLe_step _ _ _ _ (by norm_num),
    sizeProgressionLe_stop _ _ _ _ (by norm_num)]

lemma boxSizesB_eq : RevB.boxSizes = [2, 4, 8, 16, 32] := by
  unfold RevB.boxSizes RevB.maxBoxSize RevB.NEIGHBORHOOD_SIZE RevB.SCALING_FACTOR
    RevB.MIN_BOX_SIZE
  rw [show (128 : ℕ) = 127 + 1 from rfl,
    sizeProgressionLt_step _ _ _ _ (by norm_num),
    show (127 : ℕ) = 126 + 1 from rfl,
    sizeProgressionLt_step _ _ _ _ (by norm_num),
    show (126 : ℕ) = 125 + 1 from rfl,
    sizeProgressionLt_step _ _ _ _ (by norm_num),
    show (125 : ℕ) = 124 + 1 from rfl,
    sizeProgressionLt_step _ _ _ _ (by norm_num),
    show (124 : ℕ) = 123 + 1 from rfl,
    sizeProgressionLt_step _ _ _ _ (by norm_num),
    sizeProgressionLt_stop _ _ _ _ (by norm_num)]

/-! Ordinary least squares on collinear points recovers the slope. -/

lemma sum_map_add_fn (l : List ℝ) (g f : ℝ → ℝ) :
    (l.map (fun x => g x + f x)).sum = (l.map g).sum + (l.map f).sum := by
  induction l with
  | nil => simp
  | cons x l ih =>
      simp only [List.map_cons, List.sum_cons, ih]
      ring

lemma olsSlope_affine (xs : List ℝ) (a m : ℝ)
    (h : (xs.length : ℝ) * (xs.map (fun x => x * x)).sum - xs.sum * xs.sum ≠ 0) :
    olsSlope (xs.map (fun x => (x, a + m * x))) = m := by
  unfold olsSlope
  rw [List.length_map, List.map_map, List.map_map, List.map_map, List.map_map]
  have e1 : (Prod.fst ∘ fun x : ℝ => (x, a + m * x)) = fun x : ℝ => x := rfl
  have e2 : (Prod.snd ∘ fun x : ℝ => (x, a + m * x)) = fun x : ℝ => a + m * x := rfl
  have e3 : ((fun p : ℝ × ℝ => p.1 * p.2) ∘ fun x : ℝ => (x, a + m * x))
      = fun x : ℝ => a * x + m * (x * x) := by
    funext x
    simp only [Function.comp]
    ring
  have e4 : ((fun p : ℝ × ℝ => p.1 * p.1) ∘ fun x : ℝ => (x, a + m * x))
      = fun x : ℝ => x * x := rfl
  rw [e1, e2, e3, e4, List.map_id']
  have s2 : (xs.map (fun x => a + m * x)).sum = (xs.length : ℝ) * a + m * xs.sum := by
    rw [sum_map_add_fn xs (fun _ => a) (fun x => m * x), List.map_const',
      List.sum_replicate, nsmul_eq_mul, List.sum_map_mul_left, List.map_id']
  have s3 : (xs.map (fun x => a * x + m * (x * x))).sum
      = a * xs.sum + m * (xs.map (fun x => x * x)).sum := by
    rw [sum_map_add_fn xs (fun x => a * x) (fun x => m * (x * x)),
      List.sum_map_mul_left, List.map_id', List.sum_map_mul_left]
  rw [s2, s3, div_eq_iff h]
  ring

/-! The estimator on all-foreground neighborhoods. -/

lemma constMat_all_ne_zero (N c : ℕ) (hc : c ≠ 0) :
    ∀ row ∈ constMat N N c, ∀ p ∈ row, p ≠ 0 := by
  intro row hrow p hp
  rw [constMat] at hrow
  rw [List.eq_of_mem_replicate hrow] at hp
  rw [List.eq_of_mem_replicate hp]
  exact hc

lemma dataPointsRealA_constMat255 :
    RevA.dataPointsReal (constMat 81 81 255)
      = [(0 : ℝ), Real.log 3, 2 * Real.log 3, 3 * Real.log 3].map
          (fun x => (x, 8 * Real.log 3 + (-2) * x)) := by
  have hbin : binarizeWithOtsu (constMat 81 81 255) = constMat 81 81 255 := by
    rw [binarizeWithOtsu_constMat 81 81 255 (by norm_num) (by norm_num)]
    norm_num
  have hnz := constMat_all_ne_zero 81 255 (by norm_num)
  unfold RevA.dataPointsReal RevA.NEIGHBORHOOD_SIZE
  rw [boxSizesA_eq]
  simp only [List.map_cons, List.map_nil, hbin]
  rw [boxCount_of_all_ne_zero _ 81 1 (by norm_num) (by norm_num) hnz,
    boxCount_of_all_ne_zero _ 81 3 (by norm_num) (by norm_num) hnz,
    boxCount_of_all_ne_zero _ 81 9 (by norm_num) (by norm_num) hnz,
    boxCount_of_all_ne_zero _ 81 27 (by norm_num) (by norm_num) hnz]
  have l1 : Real.log ((1 : ℕ) : ℝ) = 0 := by norm_num
  have l3 : Real.log ((3 : ℕ) : ℝ) = Real.log 3 := by norm_num
  have l9 : Real.log ((9 : ℕ) : ℝ) = 2 * Real.log 3 := by
    rw [show ((9 : ℕ) : ℝ) = 3 ^ (2 : ℕ) by norm_num, Real.log_pow]
    norm_num
  have l27 : Real.log ((27 : ℕ) : ℝ) = 3 * Real.log 3 := by
    rw [show ((27 : ℕ) : ℝ) = 3 ^ (3 : ℕ) by norm_num, Real.log_pow]
    norm_num
  have c1 : Real.log (((81 / 1 : ℕ) ^ 2 : ℕ) : ℝ) = 8 * Real.log 3 := by
    rw [show (((81 / 1 : ℕ) ^ 2 : ℕ) : ℝ) = 3 ^ (8 : ℕ) by norm_num, Real.log_pow]
    norm_num
  have c3 : Real.log (((81 / 3 : ℕ) ^ 2 : ℕ) : ℝ) = 6 * Real.log 3 := by
    rw [show (((81 / 3 : ℕ) ^ 2 : ℕ) : ℝ) = 3 ^ (6 : ℕ) by norm_num, Real.log_pow]
    norm_num
  have c9 : Real.log (((81 / 9 : ℕ) ^ 2 : ℕ) : ℝ) = 4 * Real.log 3 := by
    rw [show (((81 / 9 : ℕ) ^ 2 : ℕ) : ℝ) = 3 ^ (4 : ℕ) by norm_num, Real.log_pow]
    norm_num
  have c27 : Real.log (((81 / 27 : ℕ) ^ 2 : ℕ) : ℝ) = 2 * Real.log 3 := by
    rw [show (((81 / 27 : ℕ) ^ 2 : ℕ) : ℝ) = 3 ^ (2 : ℕ) by norm_num, Real.log_pow]
    norm_num
  rw [l1, l3, l9, l27, c1, c3, c9, c27]
  norm_num
  exact ⟨by ring, by ring, by ring⟩

lemma slopeA_constMat255 :
    olsSlope (RevA.dataPointsReal (constMat 81 81 255)) = -2 := by
  rw [dataPointsRealA_constMat255]
  refine olsSlope_affine _ _ _ ?_
  have hL : 0 < Real.log 3 := Real.log_pos (by norm_num)
  have hxx : (([(0 : ℝ), Real.log 3, 2 * Real.log 3, 3 * Real.log 3]).map
      (fun x => x * x)).sum = 14 * Real.log 3 ^ 2 := by
    simp only [List.map_cons, List.map_nil, List.sum_cons, List.sum_nil]
    ring
  have hx : ([(0 : ℝ), Real.log 3, 2 * Real.log 3, 3 * Real.log 3]).sum
      = 6 * Real.log 3 := by
    simp only [List.sum_cons, List.sum_nil]
    ring
  rw [hxx, hx, show (([(0 : ℝ), Real.log 3, 2 * Real.log 3, 3 * Real.log 3]).length : ℝ)
    = 4 from by norm_num]
  have key : (4 : ℝ) * (14 * Real.log 3 ^ 2) - 6 * Real.log 3 * (6 * Real.log 3)
      = 20 * Real.log 3 ^ 2 := by ring
  rw [key]
  positivity

lemma estimateA_constMat255 : RevA.estimate (constMat 81 81 255) = -2 := by
  unfold RevA.estimate
  exact slopeA_constMat255

lemma dataPointsRealB_of_all_ne_zero (M : Mat)
    (hnz : ∀ row ∈ M, ∀ p ∈ row, p ≠ 0) :
    RevB.dataPointsReal M
      = [Real.log 2, 2 * Real.log 2, 3 * Real.log 2, 4 * Real.log 2, 5 * Real.log 2].map
          (fun x => (x, 14 * Real.log 2 + (-2) * x)) := by
  unfold RevB.dataPointsReal RevB.NEIGHBORHOOD_SIZE
  rw [boxSizesB_eq]
  simp only [List.map_cons, List.map_nil]
  rw [boxCount_of_all_ne_zero _ 128 2 (by norm_num) (by norm_num) hnz,
    boxCount_of_all_ne_zero _ 128 4 (by norm_num) (by norm_num) hnz,
    boxCount_of_all_ne_zero _ 128 8 (by norm_num) (by norm_num) hnz,
    boxCount_of_all_ne_zero _ 128 16 (by norm_num) (by norm_num) hnz,
    boxCount_of_all_ne_zero _ 128 32 (by norm_num) (by norm_num) hnz]
  have l2 : Real.log ((2 : ℕ) : ℝ) = Real.log 2 := by norm_num
  have l4 : Real.log ((4 : ℕ) : ℝ) = 2 * Real.log 2 := by
    rw [show ((4 : ℕ) : ℝ) = 2 ^ (2 : ℕ) by norm_num, Real.log_pow]
    norm_num
  have l8 : Real.log ((8 : ℕ) : ℝ) = 3 * Real.log 2 := by
    rw [show ((8 : ℕ) : ℝ) = 2 ^ (3 : ℕ) by norm_num, Real.log_pow]
    norm_num
  have l16 : Real.log ((16 : ℕ) : ℝ) = 4 * Real.log 2 := by
    rw [show ((16 : ℕ) : ℝ) = 2 ^ (4 : ℕ) by norm_num, Real.log_pow]
    norm_num
  have l32 : Real.log ((32 : ℕ) : ℝ) = 5 * Real.log 2 := by
    rw [show ((32 : ℕ) : ℝ) = 2 ^ (5 : ℕ) by norm_num, Real.log_pow]
    norm_num
  have c2 : Real.log (((128 / 2 : ℕ) ^ 2 : ℕ) : ℝ) = 12 * Real.log 2 := by
    rw [show (((128 / 2 : ℕ) ^ 2 : ℕ) : ℝ) = 2 ^ (12 : ℕ) by norm_num, Real.log_pow]
    norm_num
  have c4 : Real.log (((128 / 4 : ℕ) ^ 2 : ℕ) : ℝ) = 10 * Real.log 2 := by
    rw [show (((128 / 4 : ℕ) ^ 2 : ℕ) : ℝ) = 2 ^ (10 : ℕ) by norm_num, Real.log_pow]
    norm_num
  have c8 : Real.log (((128 / 8 : ℕ) ^ 2 : ℕ) : ℝ) = 8 * Real.log 2 := by
    rw [show (((128 / 8 : ℕ) ^ 2 : ℕ) : ℝ) = 2 ^ (8 : ℕ) by norm_num, Real.log_pow]
    norm_num
  have c16 : Real.log (((128 / 16 : ℕ) ^ 2 : ℕ) : ℝ) = 6 * Real.log 2 := by
    rw [show (((128 / 16 : ℕ) ^ 2 : ℕ) : ℝ) = 2 ^ (6 : ℕ) by norm_num, Real.log_pow]
    norm_num
  have c32 : Real.log (((128 / 32 : ℕ) ^ 2 : ℕ) : ℝ) = 4 * Real.log 2 := by
    rw [show (((128 / 32 : ℕ) ^ 2 : ℕ) : ℝ) = 2 ^ (4 : ℕ) by norm_num, Real.log_pow]
    norm_num
  rw [l2, l4, l8, l16, l32, c2, c4, c8, c16, c32]
  norm_num
  exact ⟨by ring, by ring, by ring, by ring, by ring⟩

lemma slopeB_of_all_ne_zero (M : Mat)
    (hnz : ∀ row ∈ M, ∀ p ∈ row, p ≠ 0) :
    olsSlope (RevB.dataPointsReal M) = -2 := by
  rw [dataPointsRealB_of_all_ne_zero M hnz]
  refine olsSlope_affine _ _ _ ?_
  have hL : 0 < Real.log 2 := Real.log_pos (by norm_num)
  have hxx : (([Real.log 2, 2 * Real.log 2, 3 * Real.log 2, 4 * Real.log 2,
      5 * Real.log 2]).map (fun x => x * x)).sum = 55 * Real.log 2 ^ 2 := by
    simp only [List.map_cons, List.map_nil, List.sum_cons, List.sum_nil]
    ring
  have hx : ([Real.log 2, 2 * Real.log 2, 3 * Real.log 2, 4 * Real.log 2,
      5 * Real.log 2]).sum = 15 * Real.log 2 := by
    simp only [List.sum_cons, List.sum_nil]
    ring
  rw [hxx, hx, show (([Real.log 2, 2 * Real.log 2, 3 * Real.log 2, 4 * Real.log 2,
    5 * Real.log 2]).length : ℝ) = 5 from by norm_num]
  have key : (5 : ℝ) * (55 * Real.log 2 ^ 2) - 15 * Real.log 2 * (15 * Real.log 2)
      = 50 * Real.log 2 ^ 2 := by ring
  rw [key]
  positivity

lemma estimateB_of_all_ne_zero (M : Mat)
    (hnz : ∀ row ∈ M, ∀ p ∈ row, p ≠ 0) :
    RevB.estimate M = 2 := by
  unfold RevB.estimate
  rw [slopeB_of_all_ne_zero M hnz]
  norm_num

/-! The data streams on all-background neighborhoods contain the log
of a zero count, which is negative infinity. -/

lemma dataPointsA_constMat0 :
    (RevA.dataPoints (constMat 81 81 0)).map Prod.snd = [⊥, ⊥, ⊥, ⊥] := by
  have hbin : binarizeWithOtsu (constMat 81 81 0) = constMat 81 81 0 := by
    rw [binarizeWithOtsu_constMat 81 81 0 (by norm_num) (by norm_num)]
    norm_num
  unfold RevA.dataPoints RevA.NEIGHBORHOOD_SIZE
  rw [boxSizesA_eq]
  simp only [List.map_cons, List.map_nil, hbin]
  rw [boxCount_constMat_zero 81 1 (by norm_num) (by norm_num),
    boxCount_constMat_zero 81 3 (by norm_num) (by norm_num),
    boxCount_constMat_zero 81 9 (by norm_num) (by norm_num),
    boxCount_constMat_zero 81 27 (by norm_num) (by norm_num)]
  simp [jsLog]

lemma dataPointsB_constMat0 :
    (RevB.dataPoints (constMat 128 128 0)).map Prod.snd = [⊥, ⊥, ⊥, ⊥, ⊥] := by
  unfold RevB.dataPoints RevB.NEIGHBORHOOD_SIZE
  rw [boxSizesB_eq]
  simp only [List.map_cons, List.map_nil]
  rw [boxCount_constMat_zero 128 2 (by norm_num) (by norm_num),
    boxCount_constMat_zero 128 4 (by norm_num) (by norm_num),
    boxCount_constMat_zero 128 8 (by norm_num) (by norm_num),
    boxCount_constMat_zero 128 16 (by norm_num) (by norm_num),
    boxCount_constMat_zero 128 32 (by norm_num) (by norm_num)]
  simp [jsLog]

/-! Shape and content of the normalized square grid. -/

lemma getD_map_list (l : Mat) (f : List ℕ → List ℕ) (i : ℕ) :
    (l.map f).getD i [] = if i < l.length then f (l.getD i []) else [] := by
  by_cases h : i < l.length
  · rw [if_pos h, List.getD_eq_getElem _ _ (by simpa using h),
      List.getElem_map, List.getD_eq_getElem _ _ h]
  · rw [if_neg h, List.getD_eq_default _ _ (by simpa using Nat.le_of_not_lt h)]

lemma length_fillTheRows (M : Mat) (h : rowsOf M ≤ RevB.STANDARDIZED_IMAGE_SIZE) :
    (RevB.fillTheRows M).length = RevB.STANDARDIZED_IMAGE_SIZE := by
  unfold RevB.fillTheRows
  rw [List.length_append, List.length_replicate]
  unfold rowsOf at h ⊢
  omega

lemma getD_fillTheRows (M : Mat) (i : ℕ) (hi : i < RevB.STANDARDIZED_IMAGE_SIZE) :
    (RevB.fillTheRows M).getD i []
      = if i < rowsOf M then M.getD i [] else List.replicate (width0 M) 0 := by
  unfold RevB.fillTheRows
  by_cases h : i < rowsOf M
  · rw [if_pos h, List.getD_append _ _ _ _ h]
  · rw [if_neg h, List.getD_append_right _ _ _ _ (Nat.le_of_not_lt h),
      getD_replicate_eval, if_pos ?_]
    unfold rowsOf at h ⊢
    omega

/-- The row list after the HEIGHT branch of `squareMatrix`: 512 rows;
row i is the source row for i below the source height, else a zero row
of the source width. -/
lemma squareMatrix_m1 (M : Mat) (i : ℕ) (hi : i < RevB.STANDARDIZED_IMAGE_SIZE) :
    (if RevB.STANDARDIZED_IMAGE_SIZE < rowsOf M
        then M.take RevB.STANDARDIZED_IMAGE_SIZE else RevB.fillTheRows M).length
        = RevB.STANDARDIZED_IMAGE_SIZE
      ∧ (if RevB.STANDARDIZED_IMAGE_SIZE < rowsOf M
        then M.take RevB.STANDARDIZED_IMAGE_SIZE else RevB.fillTheRows M).getD i []
        = (if i < rowsOf M then M.getD i [] else List.replicate (width0 M) 0) := by
  by_cases h : RevB.STANDARDIZED_IMAGE_SIZE < rowsOf M
  · rw [if_pos h]
    constructor
    · rw [List.length_take]
      unfold rowsOf at h
      omega
    · have hiM : i < rowsOf M := by
        unfold rowsOf at h ⊢
        omega
      rw [if_pos hiM]
      have h1 : i < (M.take RevB.STANDARDIZED_IMAGE_SIZE).length := by
        rw [List.length_take]
        unfold rowsOf at h
        omega
      rw [List.getD_eq_getElem _ _ h1, List.getElem_take, List.getD_eq_getElem _ _ hiM]
  · rw [if_neg h]
    exact ⟨length_fillTheRows M (Nat.le_of_not_lt h), getD_fillTheRows M i hi⟩

lemma getD_take_lt (l : List ℕ) (n j d : ℕ) (hj : j < n) :
    (l.take n).getD j d = l.getD j d := by
  by_cases h : j < l.length
  · have h2 : j < (l.take n).length := by
      rw [List.length_take]
      omega
    rw [List.getD_eq_getElem _ _ h2, List.getD_eq_getElem _ _ h, List.getElem_take]
  · have h2 : (l.take n).length ≤ j := by
      rw [List.length_take]
      omega
    rw [List.getD_eq_default _ _ h2, List.getD_eq_default _ _ (by omega)]

lemma squareMatrix_spec (M : Mat) (hrect : ∀ row ∈ M, row.length = width0 M)
    (i j : ℕ) (hi : i < RevB.STANDARDIZED_IMAGE_SIZE)
    (hj : j < RevB.STANDARDIZED_IMAGE_SIZE) :
    rowsOf (RevB.squareMatrix M) = RevB.STANDARDIZED_IMAGE_SIZE
      ∧ ((RevB.squareMatrix M).getD i []).length = RevB.STANDARDIZED_IMAGE_SIZE
      ∧ entry (RevB.squareMatrix M) i j
          = if i < rowsOf M ∧ j < width0 M then entry M i j else 0 := by
  have hsq : RevB.squareMatrix M
      = if RevB.STANDARDIZED_IMAGE_SIZE < width0 M
        then ((if RevB.STANDARDIZED_IMAGE_SIZE < rowsOf M
          then M.take RevB.STANDARDIZED_IMAGE_SIZE else RevB.fillTheRows M).map
            (fun row => row.take RevB.STANDARDIZED_IMAGE_SIZE))
        else ((if RevB.STANDARDIZED_IMAGE_SIZE < rowsOf M
          then M.take RevB.STANDARDIZED_IMAGE_SIZE else RevB.fillTheRows M).map
            (fun row => row ++ List.replicate (RevB.STANDARDIZED_IMAGE_SIZE - width0 M) 0)) :=
    rfl
  obtain ⟨hA1, hA2⟩ := squareMatrix_m1 M i hi
  have hrowmem : i < rowsOf M → M.getD i [] ∈ M := by
    intro h
    rw [List.getD_eq_getElem _ _ h]
    exact List.getElem_mem h
  have hrowlen : ((if RevB.STANDARDIZED_IMAGE_SIZE < rowsOf M
      then M.take RevB.STANDARDIZED_IMAGE_SIZE else RevB.fillTheRows M).getD i []).length
      = width0 M := by
    rw [hA2]
    by_cases h : i < rowsOf M
    · rw [if_pos h]
      exact hrect _ (hrowmem h)
    · rw [if_neg h, List.length_replicate]
  by_cases hw : RevB.STANDARDIZED_IMAGE_SIZE < width0 M
  · rw [hsq, if_pos hw]
    have hiA : i < (if RevB.STANDARDIZED_IMAGE_SIZE < rowsOf M
        then M.take RevB.STANDARDIZED_IMAGE_SIZE else RevB.fillTheRows M).length := by
      rw [hA1]
      exact hi
    refine ⟨?_, ?_, ?_⟩
    · rw [rowsOf, List.length_map, hA1]
    · rw [getD_map_list _ _ i, if_pos hiA, List.length_take, hrowlen]
      omega
    · rw [entry, getD_map_list _ _ i, if_pos hiA,
        getD_take_lt _ _ _ _ hj, hA2]
      by_cases h : i < rowsOf M
      · rw [if_pos h, if_pos ⟨h, by omega⟩, entry]
      · rw [if_neg h, if_neg (by omega), getD_replicate_eval]
        by_cases hjW : j < width0 M
        · rw [if_pos hjW]
        · rw [if_neg hjW]
  · rw [hsq, if_neg hw]
    have hiA : i < (if RevB.STANDARDIZED_IMAGE_SIZE < rowsOf M
        then M.take RevB.STANDARDIZED_IMAGE_SIZE else RevB.fillTheRows M).length := by
      rw [hA1]
      exact hi
    refine ⟨?_, ?_, ?_⟩
    · rw [rowsOf, List.length_map, hA1]
    · rw [getD_map_list _ _ i, if_pos hiA, List.length_append, hrowlen,
        List.length_replicate]
      omega
    · rw [entry, getD_map_list _ _ i, if_pos hiA]
      by_cases hjW : j < width0 M
      · rw [List.getD_append _ _ _ _ (by rw [hrowlen]; exact hjW), hA2]
        by_cases h : i < rowsOf M
        · rw [if_pos h, if_pos ⟨h, hjW⟩, entry]
        · rw [if_neg h, if_neg (by omega), getD_replicate_eval, if_pos hjW]
      · rw [List.getD_append_right _ _ _ _ (by rw [hrowlen]; omega),
          getD_replicate_eval, ite_self, if_neg (fun hc => hjW hc.2)]

/-! The grid builder: partition and flatten. -/

lemma toPixelMatrix_exact (w : ℕ) (hw : 0 < w) :
    ∀ (k : ℕ) (a : List ℕ), a.length = w * k →
      (toPixelMatrix a w).length = k
        ∧ (∀ i, i < k → ((toPixelMatrix a w).getD i []).length = w)
        ∧ (toPixelMatrix a w).flatten = a := by
  intro k
  induction k with
  | zero =>
      intro a ha
      have h0 : a = [] := List.eq_nil_of_length_eq_zero (by omega)
      subst h0
      rw [toPixelMatrix, dif_pos (Or.inl rfl)]
      exact ⟨rfl, fun i hi => absurd hi (by omega), rfl⟩
  | succ k ih =>
      intro a ha
      have hwa : w ≤ a.length := by
        rw [ha, Nat.mul_succ]
        omega
      have hane : a ≠ [] := by
        intro h
        rw [h] at hwa
        simp at hwa
        omega
      obtain ⟨h1, h2, h3⟩ := ih (a.drop w) (by
        rw [List.length_drop, ha, Nat.mul_succ]
        omega)
      rw [toPixelMatrix, dif_neg (by push_neg; exact ⟨hane, by omega⟩)]
      refine ⟨by rw [List.length_cons, h1], ?_, ?_⟩
      · intro i hi
        cases i with
        | zero =>
            rw [List.getD_cons_zero, List.length_take]
            omega
        | succ i =>
            rw [List.getD_cons_succ]
            exact h2 i (by omega)
      · rw [List.flatten_cons, h3, List.take_append_drop]

lemma toPixelMatrix_flatten (a : List ℕ) (w : ℕ) (hw : w ≠ 0) :
    (toPixelMatrix a w).flatten = a := by
  induction a, w using toPixelMatrix.induct with
  | case1 a w h =>
      rcases h with h | h
      · rw [toPixelMatrix, dif_pos (Or.inl h), h]
        rfl
      · exact absurd h hw
  | case2 a w h ih =>
      rw [toPixelMatrix, dif_neg h, List.flatten_cons, ih hw, List.take_append_drop]

lemma getLastD_cons_of_ne {α : Type} (x : α) (l : List α) (d : α) (hl : l ≠ []) :
    (x :: l).getLastD d = l.getLastD d := by
  cases l with
  | nil => exact absurd rfl hl
  | cons y l2 => rfl

lemma toPixelMatrix_getLast_ragged (a : List ℕ) (w : ℕ) (hw : w ≠ 0)
    (hnd : ¬ w ∣ a.length) :
    ((toPixelMatrix a w).getLastD []).length = a.length % w := by
  induction a, w using toPixelMatrix.induct with
  | case1 a w h =>
      rcases h with h | h
      · rw [h] at hnd
        exact absurd (by simp : w ∣ ([] : List ℕ).length) hnd
      · exact absurd h hw
  | case2 a w h ih =>
      simp only [not_or] at h
      rw [toPixelMatrix, dif_neg (by push_neg; exact ⟨h.1, h.2⟩)]
      by_cases hlen : a.length ≤ w
      · have hlt : a.length < w := by
          rcases Nat.lt_or_ge a.length w with h1 | h1
          · exact h1
          · have h2 : a.length = w := by omega
            rw [h2] at hnd
            exact absurd (dvd_refl w) hnd
        have hdrop : a.drop w = [] := List.drop_eq_nil_iff.mpr (by omega)
        rw [hdrop, show toPixelMatrix [] w = [] from by
          rw [toPixelMatrix, dif_pos (Or.inl rfl)]]
        show (a.take w).length = a.length % w
        rw [List.length_take, Nat.mod_eq_of_lt hlt]
        omega
      · have hgt : w < a.length := by omega
        have hdropne : a.drop w ≠ [] := by
          intro hcon
          have := List.drop_eq_nil_iff.mp hcon
          omega
        have hne : toPixelMatrix (a.drop w) w ≠ [] := by
          rw [toPixelMatrix, dif_neg (by push_neg; exact ⟨hdropne, h.2⟩)]
          exact List.cons_ne_nil _ _
        have hnd2 : ¬ w ∣ (a.drop w).length := by
          rw [List.length_drop]
          intro hcon
          refine hnd ?_
          have h3 : a.length = (a.length - w) + w := by omega
          rw [h3]
          exact Nat.dvd_add hcon (dvd_refl w)
        rw [getLastD_cons_of_ne _ _ _ hne, ih hw hnd2, List.length_drop,
          ← Nat.mod_eq_sub_mod (by omega)]

/-! The heatmap raster. -/

lemma getD_map_range {α : Type} (n : ℕ) (f : ℕ → α) (i : ℕ) (d : α) (hi : i < n) :
    ((List.range n).map f).getD i d = f i := by
  rw [List.getD_eq_getElem _ _ (by simpa using hi), List.getElem_map, List.getElem_range]

lemma flatten_getD_chunks {α : Type} (n : ℕ) (ls : List (List α))
    (h : ∀ l ∈ ls, l.length = n) (p o : ℕ) (hp : p < ls.length) (ho : o < n) (d : α) :
    ls.flatten.getD (n * p + o) d = (ls.getD p []).getD o d := by
  induction ls generalizing p with
  | nil => simp at hp
  | cons l ls ih =>
      have hl : l.length = n := h l (List.mem_cons_self l ls)
      cases p with
      | zero =>
          rw [List.flatten_cons, Nat.mul_zero, Nat.zero_add,
            List.getD_append _ _ _ _ (by omega), List.getD_cons_zero]
      | succ p =>
          have hidx : n * (p + 1) + o = l.length + (n * p + o) := by
            rw [hl, Nat.mul_succ]
            ring
          rw [List.flatten_cons, hidx,
            List.getD_append_right _ _ _ _ (Nat.le_add_right _ _),
            Nat.add_sub_cancel_left, List.getD_cons_succ]
          exact ih (fun l2 hl2 => h l2 (List.mem_cons_of_mem l hl2)) p
            (by simpa using Nat.lt_of_succ_lt_succ (by simpa using hp))

lemma length_pixelSeqQ (M : QMat) :
    (pixelSeqQ M).length = M.length * (M.headD []).length := by
  unfold pixelSeqQ
  rw [List.length_flatten, List.map_map]
  rw [map_range_eq_replicate M.length _ ((M.headD []).length) (fun i _ => by simp),
    List.sum_replicate, smul_eq_mul]

lemma length_heatmapRaster (M : QMat) :
    (heatmapRaster M).length = 3 * (M.length * (M.headD []).length) := by
  unfold heatmapRaster
  rw [List.length_flatten, List.map_map]
  have h3 : (List.length ∘ colorBytes) = fun _ : ℚ => 3 := rfl
  rw [h3, List.map_const', List.sum_replicate, smul_eq_mul, length_pixelSeqQ,
    Nat.mul_comm]

lemma pixelSeqQ_getD (M : QMat) (i j : ℕ) (hi : i < M.length)
    (hj : j < (M.headD []).length) :
    (pixelSeqQ M).getD ((M.headD []).length * i + j) 0 = (M.getD i []).getD j 0 := by
  unfold pixelSeqQ
  rw [flatten_getD_chunks ((M.headD []).length) _ (fun l hl => by
      obtain ⟨x, hx, rfl⟩ := List.mem_map.mp hl
      simp) i j (by simpa using hi) hj 0]
  rw [getD_map_range _ _ i _ hi, getD_map_range _ _ j _ hj]

lemma heatmapRaster_getD (M : QMat) (p o : ℕ) (hp : p < (pixelSeqQ M).length)
    (ho : o < 3) :
    (heatmapRaster M).getD (3 * p + o) 0
      = (colorBytes ((pixelSeqQ M).getD p 0)).getD o 0 := by
  unfold heatmapRaster
  rw [flatten_getD_chunks 3 _ (fun l hl => by
      obtain ⟨x, hx, rfl⟩ := List.mem_map.mp hl
      rfl) p o (by simpa using hp) ho 0]
  congr 1
  rw [List.getD_eq_getElem _ _ (by simpa using hp), List.getElem_map,
    List.getD_eq_getElem _ _ hp]

lemma round_mod_256 (x : ℚ) (h0 : 0 ≤ x) (h1 : x ≤ 255) :
    round x % 256 = round x := by
  have hr : round x = ⌊x + 1 / 2⌋ := round_eq x
  have hlo : 0 ≤ round x := by
    rw [hr]
    exact Int.floor_nonneg.mpr (by linarith)
  have hhi : round x < 256 := by
    rw [hr]
    exact Int.floor_lt.mpr (by push_cast; linarith)
  exact Int.emod_eq_of_lt hlo hhi

/-! The Otsu scan on the two-pixel grid [[10, 250]]: the source
selects 245, the specified rule selects 10. -/

lemma pixelSeq_M0 : pixelSeq ([[10, 250]] : Mat) = [10, 250] := by decide

lemma nh_M0_ne (v : ℕ) (h1 : v ≠ 10) (h2 : v ≠ 250) :
    normalizedHistogram ([[10, 250]] : Mat) v = 0 := by
  unfold normalizedHistogram histogram
  rw [pixelSeq_M0, List.count_eq_zero.mpr (by simp [h1, h2]), Nat.cast_zero, zero_div]

lemma nh_M0_10 : normalizedHistogram ([[10, 250]] : Mat) 10 = 1 / 2 := by
  unfold normalizedHistogram histogram totalPixels rowsOf width0
  rw [pixelSeq_M0]
  norm_num

lemma nh_M0_250 : normalizedHistogram ([[10, 250]] : Mat) 250 = 1 / 2 := by
  unfold normalizedHistogram histogram totalPixels rowsOf width0
  rw [pixelSeq_M0]
  norm_num

lemma cdf_M0 (t : ℕ) : cumulativeSum ([[10, 250]] : Mat) t
    = (if 10 ≤ t then (1 : ℚ) / 2 else 0) + (if 250 ≤ t then (1 : ℚ) / 2 else 0) := by
  unfold cumulativeSum
  rw [sum_range_support_pair _ 10 250 (by omega) (fun i h1 h2 => nh_M0_ne i h1 h2) (t + 1)]
  rw [nh_M0_10, nh_M0_250]
  simp only [Nat.lt_succ_iff]

lemma bgnum_M0 (t : ℕ) :
    ((List.range (t + 1)).map
        (fun (i : ℕ) => (i : ℚ) * normalizedHistogram ([[10, 250]] : Mat) i)).sum
      = (if 10 ≤ t then (5 : ℚ) else 0) + (if 250 ≤ t then (125 : ℚ) else 0) := by
  rw [sum_range_support_pair _ 10 250 (by omega)
    (fun i h1 h2 => by rw [nh_M0_ne i h1 h2, mul_zero]) (t + 1)]
  rw [nh_M0_10, nh_M0_250]
  simp only [Nat.lt_succ_iff]
  norm_num

lemma fgnum_M0 (t : ℕ) :
    ((List.range (255 - t)).map
        (fun (k : ℕ) => (k : ℚ) * normalizedHistogram ([[10, 250]] : Mat) k)).sum
      = (if 10 < 255 - t then (5 : ℚ) else 0)
        + (if 250 < 255 - t then (125 : ℚ) else 0) := by
  rw [sum_range_support_pair _ 10 250 (by omega)
    (fun i h1 h2 => by rw [nh_M0_ne i h1 h2, mul_zero]) (255 - t)]
  rw [nh_M0_10, nh_M0_250]
  norm_num

lemma fgnumSpec_M0 (t : ℕ) :
    (((List.range 256).filter (fun i => t < i)).map
        (fun (i : ℕ) => (i : ℚ) * normalizedHistogram ([[10, 250]] : Mat) i)).sum
      = (if t < 10 then (5 : ℚ) else 0) + (if t < 250 then (125 : ℚ) else 0) := by
  rw [sum_map_filter_eq_sum_ite]
  rw [sum_range_support_pair _ 10 250 (by omega)
    (fun i h1 h2 => by rw [nh_M0_ne i h1 h2, mul_zero, ite_self]) 256]
  rw [if_pos (by omega : (10 : ℕ) < 256), if_pos (by omega : (250 : ℕ) < 256)]
  simp only [decide_eq_true_eq]
  rw [nh_M0_10, nh_M0_250]
  by_cases h10 : t < 10 <;> by_cases h250 : t < 250
  · norm_num [h10, h250]
  · exfalso
    omega
  · norm_num [h10, h250]
  · norm_num [h10, h250]

lemma var_M0 (t : ℕ) : betweenClassVariance ([[10, 250]] : Mat) t
    = if 245 ≤ t ∧ t < 250 then 25 else 0 := by
  unfold betweenClassVariance backgroundMean foregroundMean
  rw [cdf_M0, bgnum_M0, fgnum_M0]
  by_cases h10 : 10 ≤ t
  · by_cases h250 : 250 ≤ t
    · have e1 : ¬ 10 < 255 - t := by omega
      have e2 : ¬ 250 < 255 - t := by omega
      have e3 : ¬ (245 ≤ t ∧ t < 250) := by omega
      norm_num [h10, h250, e1, e2, e3]
    · by_cases h245 : 10 < 255 - t
      · have e2 : ¬ 250 < 255 - t := by omega
        have e3 : ¬ (245 ≤ t ∧ t < 250) := by omega
        norm_num [h10, h250, h245, e2, e3]
      · have e2 : ¬ 250 < 255 - t := by omega
        have e3 : 245 ≤ t := by omega
        have e4 : t < 250 := by omega
        norm_num [h10, h250, h245, e2, e3, e4]
  · by_cases h5 : 250 < 255 - t
    · have e1 : ¬ 250 ≤ t := by omega
      have e2 : 10 < 255 - t := by omega
      have e3 : ¬ (245 ≤ t ∧ t < 250) := by omega
      norm_num [h10, h5, e1, e2, e3]
    · have e1 : ¬ 250 ≤ t := by omega
      have e2 : 10 < 255 - t := by omega
      have e3 : ¬ (245 ≤ t ∧ t < 250) := by omega
      norm_num [h10, h5, e1, e2, e3]

lemma varSpec_M0 (t : ℕ) : betweenClassVarianceSpec ([[10, 250]] : Mat) t
    = if 10 ≤ t ∧ t < 250 then 14400 else 0 := by
  unfold betweenClassVarianceSpec backgroundMeanSpec backgroundMean foregroundMeanSpec
  rw [cdf_M0, bgnum_M0, fgnumSpec_M0]
  by_cases h10 : 10 ≤ t
  · by_cases h250 : 250 ≤ t
    · have e1 : ¬ t < 10 := by omega
      have e2 : ¬ t < 250 := by omega
      have e3 : ¬ (10 ≤ t ∧ t < 250) := by omega
      norm_num [h10, h250, e1, e2, e3]
    · have e1 : ¬ t < 10 := by omega
      have e2 : t < 250 := by omega
      norm_num [h10, h250, e1, e2]
  · have e1 : ¬ 250 ≤ t := by omega
    have e2 : t < 10 := by omega
    have e3 : t < 250 := by omega
    have e4 : ¬ (10 ≤ t ∧ t < 250) := by omega
    norm_num [h10, e1, e2, e3, e4]

lemma otsuThreshold_M0 : otsuThreshold ([[10, 250]] : Mat) = 245 := by
  refine otsuThreshold_select _ 245 (by omega) ?_ ?_ ?_
  · intro t ht
    rw [var_M0, if_neg (by omega)]
  · rw [var_M0, if_pos (by omega : 245 ≤ 245 ∧ 245 < 250)]
    norm_num
  · intro t h1 h2
    rw [var_M0, var_M0, if_pos (by omega : 245 ≤ 245 ∧ 245 < 250)]
    by_cases h : 245 ≤ t ∧ t < 250
    · rw [if_pos h]
    · rw [if_neg h]
      norm_num

lemma otsuThresholdSpec_M0 : otsuThresholdSpec ([[10, 250]] : Mat) = 10 := by
  refine otsuThresholdSpec_select _ 10 (by omega) ?_ ?_ ?_
  · intro t ht
    rw [varSpec_M0, if_neg (by omega)]
  · rw [varSpec_M0, if_pos (by omega : 10 ≤ 10 ∧ 10 < 250)]
    norm_num
  · intro t h1 h2
    rw [varSpec_M0, varSpec_M0, if_pos (by omega : 10 ≤ 10 ∧ 10 < 250)]
    by_cases h : 10 ≤ t ∧ t < 250
    · rw [if_pos h]
    · rw [if_neg h]
      norm_num

lemma foregroundMean_M0_100 : foregroundMean ([[10, 250]] : Mat) 100 = 10 := by
  unfold foregroundMean
  rw [fgnum_M0, cdf_M0]
  norm_num

lemma foregroundMeanSpec_M0_100 : foregroundMeanSpec ([[10, 250]] : Mat) 100 = 250 := by
  unfold foregroundMeanSpec
  rw [fgnumSpec_M0, cdf_M0]
  norm_num

/-! The hypothetical progression of the end-to-end scenario:
N = 4, minimum box size 1, factor 2, strict bound N / 2. -/

lemma sizes_scenario_eq : sizeProgressionLt 2 ((4 : ℚ) / 2) 4 1 = [1] := by
  rw [show (4 : ℕ) = 3 + 1 from rfl, sizeProgressionLt_step _ _ _ _ (by norm_num),
    sizeProgressionLt_stop _ _ _ _ (by norm_num)]

/-! Claim theorems. -/

/-- C1, counterexample: the claim says the estimator returns the
negated slope of the fitted line.  On the all-255 neighborhood the
fitted slope is -2; the first revision returns -2 (the raw slope),
not the negated slope 2, so the claim is false of that revision. -/
theorem C1_counterexample :
    RevA.estimate (constMat 81 81 255) = -2
      ∧ specFractalDimension (RevA.dataPointsReal (constMat 81 81 255)) = 2
      ∧ RevA.estimate (constMat 81 81 255)
          ≠ specFractalDimension (RevA.dataPointsReal (constMat 81 81 255)) := by
  have h2 : specFractalDimension (RevA.dataPointsReal (constMat 81 81 255)) = 2 := by
    unfold specFractalDimension
    rw [slopeA_constMat255]
    norm_num
  exact ⟨estimateA_constMat255, h2, by rw [estimateA_constMat255, h2]; norm_num⟩

/-- C1 (amended): both revisions fit an ordinary-least-squares line to
the (log boxSize, log boxCount) points; the second revision returns
the negated slope (the specification convention), while the first
returns the raw slope (its negation); concretely, on an all-255
neighborhood the second revision returns 2 and the first returns -2. -/
theorem C1_amended :
    (∀ nb : Mat, RevB.estimate nb = specFractalDimension (RevB.dataPointsReal nb))
      ∧ (∀ nb : Mat, RevA.estimate nb = -specFractalDimension (RevA.dataPointsReal nb))
      ∧ RevB.estimate (constMat 128 128 255) = 2
      ∧ RevA.estimate (constMat 81 81 255) = -2 := by
  refine ⟨fun nb => rfl, fun nb => ?_, ?_, estimateA_constMat255⟩
  · unfold RevA.estimate specFractalDimension
    ring
  · exact estimateB_of_all_ne_zero _ (constMat_all_ne_zero 128 255 (by norm_num))

/-- C2: the claim says a zero box count is recorded with the sentinel
value 0 and that negative infinity never reaches the regression.  The
code has no sentinel: on an all-background neighborhood every box
count is 0 and the recorded y-values are Math.log 0 = bottom (negative
infinity), in both revisions. -/
theorem C2_log_zero_reaches_regression :
    (RevA.dataPoints (constMat 81 81 0)).map Prod.snd = [⊥, ⊥, ⊥, ⊥]
      ∧ (RevB.dataPoints (constMat 128 128 0)).map Prod.snd = [⊥, ⊥, ⊥, ⊥, ⊥]
      ∧ (⊥ : EReal) ∈ (RevA.dataPoints (constMat 81 81 0)).map Prod.snd := by
  refine ⟨dataPointsA_constMat0, dataPointsB_constMat0, ?_⟩
  rw [dataPointsA_constMat0]
  simp

/-- C3: the claim states the textbook Otsu selection with foreground
mean summed over the bins above t.  The source sums the foreground
mean over the LOW bins (the reduce index restarts at 0 after the
slice): on the grid [[10, 250]] the source selects threshold 245
while the stated rule selects 10, and at t = 100 the source
foreground mean is 10 where the stated formula gives 250. -/
theorem C3_otsu_foreground_mean_bug :
    otsuThreshold ([[10, 250]] : Mat) = 245
      ∧ otsuThresholdSpec ([[10, 250]] : Mat) = 10
      ∧ foregroundMean ([[10, 250]] : Mat) 100 = 10
      ∧ foregroundMeanSpec ([[10, 250]] : Mat) 100 = 250
      ∧ otsuThreshold ([[10, 250]] : Mat) ≠ otsuThresholdSpec ([[10, 250]] : Mat) := by
  refine ⟨otsuThreshold_M0, otsuThresholdSpec_M0, foregroundMean_M0_100,
    foregroundMeanSpec_M0_100, ?_⟩
  rw [otsuThreshold_M0, otsuThresholdSpec_M0]
  omega

/-- C4, counterexample: the claim says an all-128 grid binarizes to
all background.  The threshold is 0 as claimed, but 128 > 0, so every
output value is 255: the output is all FOREGROUND. -/
theorem C4_counterexample :
    otsuThreshold ([[128]] : Mat) = 0
      ∧ binarizeWithOtsu ([[128]] : Mat) = [[255]]
      ∧ binarizeWithOtsu ([[128]] : Mat) ≠ [[0]] := by
  have h1 : otsuThreshold ([[128]] : Mat) = 0 := by
    have h := otsuThreshold_constMat 1 1 128 (by norm_num) (by norm_num)
    simpa [constMat] using h
  have h2 : binarizeWithOtsu ([[128]] : Mat) = [[255]] := by
    have h := binarizeWithOtsu_constMat 1 1 128 (by norm_num) (by norm_num)
    simpa [constMat] using h
  exact ⟨h1, h2, by rw [h2]; simp⟩

/-- C4 (amended): on every constant grid the Otsu threshold is 0 (the
variance is 0 at every candidate, so the left-to-right tie rule keeps
t = 0), and the binarized output is all foreground (255) when the
constant is positive, all background (0) only when the constant is 0. -/
theorem C4_amended (m n c : ℕ) (hm : 0 < m) (hn : 0 < n) :
    otsuThreshold (constMat m n c) = 0
      ∧ binarizeWithOtsu (constMat m n c) = constMat m n (if 0 < c then 255 else 0) :=
  ⟨otsuThreshold_constMat m n c hm hn, binarizeWithOtsu_constMat m n c hm hn⟩

/-- Witness for C4 (amended) at the 1-by-1 grid of constant 128. -/
theorem C4_amended_witness :
    otsuThreshold (constMat 1 1 128) = 0
      ∧ binarizeWithOtsu (constMat 1 1 128) = constMat 1 1 (if 0 < 128 then 255 else 0) :=
  C4_amended 1 1 128 (by norm_num) (by norm_num)

/-- C5, counterexample: the claim says an all-foreground neighborhood
gives slope 0 and fractal dimension 0.  The box counts (N/b)^2 fall
on a log-log line of slope -2, so the second revision returns 2 and
the first returns -2; neither is 0. -/
theorem C5_counterexample :
    RevB.estimate (constMat 128 128 255) = 2
      ∧ RevA.estimate (constMat 81 81 255) = -2
      ∧ RevB.estimate (constMat 128 128 255) ≠ 0 := by
  have h1 := estimateB_of_all_ne_zero _ (constMat_all_ne_zero 128 255 (by norm_num))
  exact ⟨h1, estimateA_constMat255, by rw [h1]; norm_num⟩

/-- C5 (amended): for every all-foreground 128-by-128 neighborhood and
every box size b of the second revision progression, the box count is
exactly (128 / b)^2; the fitted log-log line has slope -2, and the
returned fractal dimension is 2 under the negated-slope convention of
the second revision (the raw-slope first revision returns -2). -/
theorem C5_amended (M : Mat) (b : ℕ) (hb : b ∈ RevB.boxSizes)
    (hdim : rowsOf M = 128) (hrow : ∀ row ∈ M, row.length = 128)
    (hnz : ∀ row ∈ M, ∀ p ∈ row, p ≠ 0) :
    boxCount M 128 b = (128 / b) ^ 2
      ∧ olsSlope (RevB.dataPointsReal M) = -2
      ∧ RevB.estimate M = 2 := by
  have hball : b = 2 ∨ b = 4 ∨ b = 8 ∨ b = 16 ∨ b = 32 := by
    rw [boxSizesB_eq] at hb
    simpa using hb
  refine ⟨?_, slopeB_of_all_ne_zero M hnz, estimateB_of_all_ne_zero M hnz⟩
  rcases hball with rfl | rfl | rfl | rfl | rfl <;>
    exact boxCount_of_all_ne_zero M 128 _ (by norm_num) (by norm_num) hnz

/-- Witness for C5 (amended) at the all-255 128-by-128 grid, box size 2. -/
theorem C5_amended_witness :
    boxCount (constMat 128 128 255) 128 2 = (128 / 2) ^ 2
      ∧ olsSlope (RevB.dataPointsReal (constMat 128 128 255)) = -2
      ∧ RevB.estimate (constMat 128 128 255) = 2 :=
  C5_amended (constMat 128 128 255) 2 (by rw [boxSizesB_eq]; simp)
    (by rw [rowsOf_constMat])
    (fun row hrow => by rw [List.eq_of_mem_replicate hrow, List.length_replicate])
    (constMat_all_ne_zero 128 255 (by norm_num))

/-- C6, counterexample: with N = 4, minimum box size 1, factor 2 and
the stated strict stopping rule size < N / 2, the progression visits
only [1], not [1, 2, 4]. -/
theorem C6_counterexample :
    sizeProgressionLt 2 ((4 : ℚ) / 2) 4 1 = [1]
      ∧ sizeProgressionLt 2 ((4 : ℚ) / 2) 4 1 ≠ [1, 2, 4] := by
  refine ⟨sizes_scenario_eq, ?_⟩
  rw [sizes_scenario_eq]
  simp

/-- C6 (amended): for the 4-by-4 all-foreground grid with
B_min = 1, k = 2, under the stated rule size < N / 2 the progression
visits only size [1] and produces the single box count [16]
(= (4/1)^2); reaching sizes [1, 2, 4] with counts [16, 4, 1] would
need the looser bound size <= N. -/
theorem C6_amended :
    sizeProgressionLt 2 ((4 : ℚ) / 2) 4 1 = [1]
      ∧ (sizeProgressionLt 2 ((4 : ℚ) / 2) 4 1).map
          (fun b => boxCount (constMat 4 4 255) 4 b) = [16] := by
  refine ⟨sizes_scenario_eq, ?_⟩
  rw [sizes_scenario_eq, List.map_cons, List.map_nil,
    boxCount_of_all_ne_zero (constMat 4 4 255) 4 1 (by norm_num) (by norm_num)
      (constMat_all_ne_zero 4 255 (by norm_num))]
  norm_num

/-- C7: the Grid Normalizer output is exactly 512 x 512 for every
rectangular nonempty input: the row count and every row length are
512, and the cell at (i, j) is the source cell when (i, j) lies inside
the source and 0 otherwise (truncation keeps the first rows / columns,
padding appends zeros). -/
theorem C7_normalizer_shape (M : Mat) (hH : 0 < rowsOf M) (hW : 0 < width0 M)
    (hrect : ∀ row ∈ M, row.length = width0 M) (i j : ℕ)
    (hi : i < 512) (hj : j < 512) :
    rowsOf (RevB.squareMatrix M) = 512
      ∧ ((RevB.squareMatrix M).getD i []).length = 512
      ∧ entry (RevB.squareMatrix M) i j
          = if i < rowsOf M ∧ j < width0 M then entry M i j else 0 :=
  squareMatrix_spec M hrect i j hi hj

/-- Witness for C7 at the 1-by-1 grid [[7]], cell (0, 0). -/
theorem C7_normalizer_shape_witness :
    rowsOf (RevB.squareMatrix [[7]]) = 512
      ∧ ((RevB.squareMatrix [[7]]).getD 0 []).length = 512
      ∧ entry (RevB.squareMatrix [[7]]) 0 0
          = if 0 < rowsOf ([[7]] : Mat) ∧ 0 < width0 ([[7]] : Mat)
            then entry [[7]] 0 0 else 0 :=
  C7_normalizer_shape [[7]] (by norm_num [rowsOf]) (by norm_num [width0])
    (fun row hrow => by rw [List.mem_singleton] at hrow; subst hrow; rfl)
    0 0 (by norm_num) (by norm_num)

/-- C8, counterexample: the claim says a buffer whose length is not a
multiple of the width fails with MalformedInput.  The Grid Builder has
no failure path: on the 3-sample buffer with width 2 it returns the
grid [[1, 2], [3]] with a short final row. -/
theorem C8_counterexample : toPixelMatrix [1, 2, 3] 2 = [[1, 2], [3]] := by
  rw [toPixelMatrix, dif_neg (by simp)]
  norm_num
  rw [toPixelMatrix, dif_neg (by simp)]
  norm_num
  rw [toPixelMatrix, dif_pos (Or.inl rfl)]

/-- C8 (amended): the Grid Builder performs no divisibility check:
when the buffer length is not a multiple of the width it still
produces a grid; the rows concatenate back to the buffer, the final
row carries the remaining length mod width samples, and that
remainder is nonzero. -/
theorem C8_amended (a : List ℕ) (w : ℕ) (hw : 0 < w) (hnd : ¬ w ∣ a.length) :
    (toPixelMatrix a w).flatten = a
      ∧ ((toPixelMatrix a w).getLastD []).length = a.length % w
      ∧ a.length % w ≠ 0 :=
  ⟨toPixelMatrix_flatten a w (by omega),
    toPixelMatrix_getLast_ragged a w (by omega) hnd,
    fun h => hnd (Nat.dvd_of_mod_eq_zero h)⟩

/-- Witness for C8 (amended) at the buffer [1, 2, 3] with width 2. -/
theorem C8_amended_witness :
    (toPixelMatrix [1, 2, 3] 2).flatten = [1, 2, 3]
      ∧ ((toPixelMatrix [1, 2, 3] 2).getLastD []).length = ([1, 2, 3] : List ℕ).length % 2
      ∧ ([1, 2, 3] : List ℕ).length % 2 ≠ 0 :=
  C8_amended [1, 2, 3] 2 (by norm_num) (by decide)

/-- C9: the heatmap raster is total (3 bytes for every cell,
whatever the field values are), and for a cell value v between 0 and
1 the bytes at that cell are red = round(255 v), green = 0,
blue = round(255 (1 - v)). -/
theorem C9_heatmap_color (M : QMat) (i j : ℕ) (hi : i < M.length)
    (hj : j < (M.headD []).length) (v : ℚ) (hv : v = (M.getD i []).getD j 0)
    (h0 : 0 ≤ v) (h1 : v ≤ 1) :
    (heatmapRaster M).length = 3 * (M.length * (M.headD []).length)
      ∧ (heatmapRaster M).getD (3 * ((M.headD []).length * i + j)) 0 = round (255 * v)
      ∧ (heatmapRaster M).getD (3 * ((M.headD []).length * i + j) + 1) 0 = 0
      ∧ (heatmapRaster M).getD (3 * ((M.headD []).length * i + j) + 2) 0
          = round (255 * (1 - v)) := by
  have hp : (M.headD []).length * i + j < (pixelSeqQ M).length := by
    rw [length_pixelSeqQ]
    calc (M.headD []).length * i + j
        < (M.headD []).length * i + (M.headD []).length := by omega
      _ = (M.headD []).length * (i + 1) := by ring
      _ ≤ (M.headD []).length * M.length := Nat.mul_le_mul_left _ (by omega)
      _ = M.length * (M.headD []).length := Nat.mul_comm _ _
  have hpix : (pixelSeqQ M).getD ((M.headD []).length * i + j) 0 = v := by
    rw [pixelSeqQ_getD M i j hi hj, hv]
  refine ⟨length_heatmapRaster M, ?_, ?_, ?_⟩
  · have h := heatmapRaster_getD M ((M.headD []).length * i + j) 0 hp (by norm_num)
    rw [Nat.add_zero] at h
    rw [h, hpix]
    unfold colorBytes getColor
    rw [List.getD_cons_zero]
    exact round_mod_256 _ (by positivity) (by nlinarith)
  · have h := heatmapRaster_getD M ((M.headD []).length * i + j) 1 hp (by norm_num)
    rw [h, hpix]
    unfold colorBytes getColor
    rw [List.getD_cons_succ, List.getD_cons_zero]
    simp
  · have h := heatmapRaster_getD M ((M.headD []).length * i + j) 2 hp (by norm_num)
    rw [h, hpix]
    unfold colorBytes getColor
    rw [List.getD_cons_succ, List.getD_cons_succ, List.getD_cons_zero]
    exact round_mod_256 _ (by nlinarith) (by nlinarith)

/-- Witness for C9 at the 1-by-1 field [[1/2]]. -/
theorem C9_heatmap_color_witness :
    (heatmapRaster [[1 / 2]]).length
        = 3 * (([[1 / 2]] : QMat).length * (([[1 / 2]] : QMat).headD []).length)
      ∧ (heatmapRaster [[1 / 2]]).getD
          (3 * ((([[1 / 2]] : QMat).headD []).length * 0 + 0)) 0
          = round ((255 : ℚ) * (1 / 2))
      ∧ (heatmapRaster [[1 / 2]]).getD
          (3 * ((([[1 / 2]] : QMat).headD []).length * 0 + 0) + 1) 0 = 0
      ∧ (heatmapRaster [[1 / 2]]).getD
          (3 * ((([[1 / 2]] : QMat).headD []).length * 0 + 0) + 2) 0
          = round ((255 : ℚ) * (1 - 1 / 2)) :=
  C9_heatmap_color [[1 / 2]] 0 0 (by norm_num) (by norm_num) (1 / 2) rfl
    (by norm_num) (by norm_num)

/-- C10: for a width of at least 1 and a buffer whose length is a
positive multiple of the width, the Grid Builder yields length / width
rows, each of exactly width samples, and the rows concatenate back to
the original buffer. -/
theorem C10_roundtrip (a : List ℕ) (w : ℕ) (hw : 0 < w) (hlen : 0 < a.length)
    (hdvd : w ∣ a.length) (i : ℕ) (hi : i < a.length / w) :
    (toPixelMatrix a w).length = a.length / w
      ∧ ((toPixelMatrix a w).getD i []).length = w
      ∧ (toPixelMatrix a w).flatten = a := by
  obtain ⟨k, hk⟩ := hdvd
  obtain ⟨h1, h2, h3⟩ := toPixelMatrix_exact w hw k a hk
  have hdiv : a.length / w = k := by
    rw [hk]
    exact Nat.mul_div_cancel_left k hw
  exact ⟨by rw [h1, hdiv], h2 i (by rw [hdiv] at hi; exact hi), h3⟩

/-- Witness for C10 at the buffer [5, 6, 7, 8] with width 2, row 0. -/
theorem C10_roundtrip_witness :
    (toPixelMatrix [5, 6, 7, 8] 2).length = ([5, 6, 7, 8] : List ℕ).length / 2
      ∧ ((toPixelMatrix [5, 6, 7, 8] 2).getD 0 []).length = 2
      ∧ (toPixelMatrix [5, 6, 7, 8] 2).flatten = [5, 6, 7, 8] :=
  C10_roundtrip [5, 6, 7, 8] 2 (by norm_num) (by decide) (by decide) 0 (by decide)

end BoxApp
